import Mathlib

/-!
Verification of the KML File Viewer core (`src/App.js`).

The application is a single React component.  Its state consists of three
`useState` cells: `geoJsonData` (the GeoJSON produced from the uploaded KML
file, or `null`), `summary` (the geometry-type → count table, or `null`) and
`details` (the geometry-type → total-length table, or `null`).  Three event
handlers mutate this state: `handleFileUpload` (file input change),
`handleSummary` and `handleDetailed` (button clicks), and a `useEffect`
fits the map to the bounding box of the loaded data.

This file gives a shallow embedding of that state machine and of the
computations it performs, and proves the specification claims about it.
Geographic coordinates are modelled as rationals (the program performs only
comparisons and additions on them in the parts we verify, so the embedding
is exact); the haversine point-to-point distance used by `turf.length` is an
external library primitive and is passed in as an explicit function
parameter `dist`.
-/

namespace KML

/-- A GeoJSON position `[longitude, latitude]` (togeojson emits lon/lat
pairs, possibly with an altitude that none of the verified code reads). -/
abbrev Pos : Type := ℚ × ℚ

/-- GeoJSON geometry as produced by togeojson's KML conversion: one of the
closed set of geometry kinds, with coordinates nested according to the kind.
A KML `MultiGeometry` with mixed member kinds becomes a
`GeometryCollection`. -/
inductive Geometry : Type where
  | point (c : Pos)
  | multiPoint (cs : List Pos)
  | lineString (cs : List Pos)
  | multiLineString (lines : List (List Pos))
  | polygon (rings : List (List Pos))
  | multiPolygon (polys : List (List (List Pos)))
  | geometryCollection (geometries : List Geometry)

/-- The `type` tag of a GeoJSON geometry object (the string the handlers
switch on, `feature.geometry.type` in `App.js`). -/
def Geometry.type : Geometry → String
  | .point _ => "Point"
  | .multiPoint _ => "MultiPoint"
  | .lineString _ => "LineString"
  | .multiLineString _ => "MultiLineString"
  | .polygon _ => "Polygon"
  | .multiPolygon _ => "MultiPolygon"
  | .geometryCollection _ => "GeometryCollection"

mutual

/-- Every position occurring in a geometry, in document order — the
positions that turf's `coordEach` visits (used by `turf.bbox`). -/
def Geometry.coords : Geometry → List Pos
  | .point c => [c]
  | .multiPoint cs => cs
  | .lineString cs => cs
  | .multiLineString lines => lines.flatten
  | .polygon rings => rings.flatten
  | .multiPolygon polys => (polys.map List.flatten).flatten
  | .geometryCollection gs => coordsList gs

/-- `coordEach` over a list of geometries (a `GeometryCollection`'s
members). -/
def coordsList : List Geometry → List Pos
  | [] => []
  | g :: gs => g.coords ++ coordsList gs

end

/-- A GeoJSON feature.  togeojson also attaches a `properties` object, but
no verified code path reads it, so only the geometry is modelled. -/
structure Feature : Type where
  geometry : Geometry

/-- A GeoJSON `FeatureCollection` — the value held in `geoJsonData` after a
successful load. -/
structure GeometryCollection : Type where
  features : List Feature

/-- The component's three `useState` cells. -/
structure AppState : Type where
  geoJsonData : Option GeometryCollection
  summary : Option (List (String × ℕ))
  details : Option (List (String × ℚ))

/-! ### The Summary computation (`handleSummary`, App.js lines 33–41)

JavaScript objects with non-numeric string keys preserve insertion order,
so the `counts` object is modelled as an association list:
`counts[geomType] = (counts[geomType] || 0) + 1` updates the entry in place
when the key exists and appends a fresh entry with value 1 otherwise. -/

/-- `counts[k] = (counts[k] || 0) + 1` on the association-list model. -/
def incr (m : List (String × ℕ)) (k : String) : List (String × ℕ) :=
  match m with
  | [] => [(k, 1)]
  | (j, v) :: rest => if j = k then (j, v + 1) :: rest else (j, v) :: incr rest k

/-- The pure computation inside `handleSummary`: fold `incr` over the
features of the collection, starting from the empty object. -/
def summaryCounts (c : GeometryCollection) : List (String × ℕ) :=
  c.features.foldl (fun m f => incr m f.geometry.type) []

/-- `m[k] || 0`: value stored at key `k`, defaulting to 0. -/
def lookupD (m : List (String × ℕ)) (k : String) : ℕ :=
  match m with
  | [] => 0
  | (j, v) :: rest => if j = k then v else lookupD rest k

theorem lookupD_incr_self (m : List (String × ℕ)) (k : String) :
    lookupD (incr m k) k = lookupD m k + 1 := by
  induction m with
  | nil => simp [incr, lookupD]
  | cons p rest ih =>
    obtain ⟨j, v⟩ := p
    by_cases hj : j = k <;> simp [incr, lookupD, hj, ih]

theorem lookupD_incr_ne (m : List (String × ℕ)) (k j : String) (hj : j ≠ k) :
    lookupD (incr m k) j = lookupD m j := by
  induction m with
  | nil => simp [incr, lookupD, Ne.symm hj]
  | cons p rest ih =>
    obtain ⟨i, v⟩ := p
    by_cases hik : i = k
    · subst hik
      simp [incr, lookupD, Ne.symm hj]
    · simp [incr, lookupD, hik, ih]

theorem keys_incr (m : List (String × ℕ)) (k : String) :
    (incr m k).map Prod.fst =
      if k ∈ m.map Prod.fst then m.map Prod.fst else m.map Prod.fst ++ [k] := by
  induction m with
  | nil => simp [incr]
  | cons p rest ih =>
    obtain ⟨i, v⟩ := p
    by_cases hik : i = k
    · subst hik
      simp [incr]
    · by_cases hmem : k ∈ rest.map Prod.fst <;>
        simp [incr, hik, ih, hmem, Ne.symm hik]

theorem nodup_keys_incr (m : List (String × ℕ)) (k : String)
    (h : (m.map Prod.fst).Nodup) : ((incr m k).map Prod.fst).Nodup := by
  rw [keys_incr]
  by_cases hmem : k ∈ m.map Prod.fst
  · simpa [hmem] using h
  · rw [if_neg hmem]
    refine h.append (List.nodup_singleton k) ?_
    intro a ha hb
    rw [List.mem_singleton] at hb
    exact hmem (hb ▸ ha)

theorem values_pos_incr (m : List (String × ℕ)) (k : String)
    (h : ∀ p ∈ m, 0 < p.2) : ∀ p ∈ incr m k, 0 < p.2 := by
  induction m with
  | nil =>
    intro p hp
    simp only [incr, List.mem_singleton] at hp
    subst hp
    exact Nat.one_pos
  | cons q rest ih =>
    obtain ⟨i, v⟩ := q
    intro p hp
    by_cases hik : i = k
    · simp only [incr, if_pos hik, List.mem_cons] at hp
      rcases hp with rfl | hp
      · exact Nat.succ_pos v
      · exact h p (List.mem_cons_of_mem _ hp)
    · simp only [incr, if_neg hik, List.mem_cons] at hp
      rcases hp with rfl | hp
      · exact h (i, v) (List.mem_cons_self _ _)
      · exact ih (fun q hq => h q (List.mem_cons_of_mem _ hq)) p hp

theorem lookupD_eq_zero_of_not_mem (m : List (String × ℕ)) (k : String)
    (h : k ∉ m.map Prod.fst) : lookupD m k = 0 := by
  induction m with
  | nil => rfl
  | cons p rest ih =>
    obtain ⟨i, v⟩ := p
    simp only [List.map_cons, List.mem_cons, not_or] at h
    simp only [lookupD]
    rw [if_neg (fun hik => h.1 hik.symm)]
    exact ih h.2

theorem lookupD_pos_of_mem (m : List (String × ℕ)) (k : String)
    (hpos : ∀ p ∈ m, 0 < p.2) (h : k ∈ m.map Prod.fst) : 0 < lookupD m k := by
  induction m with
  | nil => simp at h
  | cons p rest ih =>
    obtain ⟨i, v⟩ := p
    by_cases hik : i = k
    · have := hpos (i, v) (by simp)
      simpa [lookupD, hik] using this
    · simp only [List.map_cons, List.mem_cons] at h
      rcases h with h | h
      · exact absurd h.symm hik
      · simpa [lookupD, hik] using
          ih (fun q hq => hpos q (List.mem_cons_of_mem _ hq)) h

theorem sum_incr (m : List (String × ℕ)) (k : String) :
    ((incr m k).map Prod.snd).sum = (m.map Prod.snd).sum + 1 := by
  induction m with
  | nil => simp [incr]
  | cons p rest ih =>
    obtain ⟨i, v⟩ := p
    by_cases hik : i = k <;> simp [incr, hik, ih] <;> omega

theorem lookupD_foldl_incr (l : List Feature) (m : List (String × ℕ)) (k : String) :
    lookupD (l.foldl (fun m f => incr m f.geometry.type) m) k =
      lookupD m k + (l.filter (fun f => f.geometry.type == k)).length := by
  induction l generalizing m with
  | nil => simp
  | cons f rest ih =>
    by_cases hk : f.geometry.type = k
    · subst hk
      simp only [List.foldl_cons, ih, List.filter_cons, beq_self_eq_true,
        if_pos, lookupD_incr_self, List.length_cons]
      omega
    · simp [List.filter_cons, hk, ih, lookupD_incr_ne _ _ _ (Ne.symm hk)]

theorem nodup_keys_foldl_incr (l : List Feature) (m : List (String × ℕ))
    (h : (m.map Prod.fst).Nodup) :
    (((l.foldl (fun m f => incr m f.geometry.type) m)).map Prod.fst).Nodup := by
  induction l generalizing m with
  | nil => exact h
  | cons f rest ih => exact ih _ (nodup_keys_incr _ _ h)

theorem values_pos_foldl_incr (l : List Feature) (m : List (String × ℕ))
    (h : ∀ p ∈ m, 0 < p.2) :
    ∀ p ∈ l.foldl (fun m f => incr m f.geometry.type) m, 0 < p.2 := by
  induction l generalizing m with
  | nil => exact h
  | cons f rest ih => exact ih _ (values_pos_incr _ _ h)

theorem sum_foldl_incr (l : List Feature) (m : List (String × ℕ)) :
    (((l.foldl (fun m f => incr m f.geometry.type) m)).map Prod.snd).sum =
      (m.map Prod.snd).sum + l.length := by
  induction l generalizing m with
  | nil => simp
  | cons f rest ih => simp [ih, sum_incr]; omega

/-- C1: the Summary table has pairwise-distinct keys, the value at every key
`k` is the number of features whose geometry type is `k`, a key is present
exactly when at least one feature of that type occurs, and the values sum to
the number of features. -/
theorem summaryCounts_correct (c : GeometryCollection) :
    ((summaryCounts c).map Prod.fst).Nodup ∧
    (∀ k : String, lookupD (summaryCounts c) k =
      (c.features.filter (fun f => f.geometry.type == k)).length) ∧
    (∀ k : String, k ∈ (summaryCounts c).map Prod.fst ↔
      0 < (c.features.filter (fun f => f.geometry.type == k)).length) ∧
    ((summaryCounts c).map Prod.snd).sum = c.features.length := by
  have hlook : ∀ k : String, lookupD (summaryCounts c) k =
      (c.features.filter (fun f => f.geometry.type == k)).length := by
    intro k
    simpa [lookupD] using lookupD_foldl_incr c.features [] k
  have hpos : ∀ p ∈ summaryCounts c, 0 < p.2 :=
    values_pos_foldl_incr c.features [] (by simp)
  refine ⟨nodup_keys_foldl_incr _ _ (by simp), hlook, fun k => ?_, ?_⟩
  · constructor
    · intro hk
      rw [← hlook k]
      exact lookupD_pos_of_mem _ _ hpos hk
    · intro hk
      by_contra hmem
      rw [← hlook k, lookupD_eq_zero_of_not_mem _ _ hmem] at hk
      exact Nat.lt_irrefl 0 hk
  · simpa using sum_foldl_incr c.features []

/-! ### The Detailed computation (`handleDetailed`, App.js lines 44–55)

`turf.length(feature, { units: 'kilometers' })` sums the pointwise
haversine distance over every 2-point segment of the geometry
(`segmentReduce` with initial value 0; consecutive coordinate pairs within
each line, never across constituent lines).  The pointwise distance is an
external numeric primitive of the turf library; it enters the embedding as
the explicit parameter `dist`. -/

/-- Sum of `dist` over consecutive coordinate pairs of one line — turf's
segment accumulation.  A line with fewer than two positions has no
segments. -/
def segmentSum (dist : Pos → Pos → ℚ) : List Pos → ℚ
  | [] => 0
  | [_] => 0
  | p :: q :: rest => dist p q + segmentSum dist (q :: rest)

mutual

/-- `turf.length` (in kilometers): segment sums accumulated over the
geometry's lines (for polygons: over the rings, which is how turf's
`segmentReduce` treats them; the program only ever applies it to
`LineString` and `MultiLineString` features). -/
def turfLength (dist : Pos → Pos → ℚ) : Geometry → ℚ
  | .point _ => 0
  | .multiPoint _ => 0
  | .lineString cs => segmentSum dist cs
  | .multiLineString lines => lines.foldl (fun acc l => acc + segmentSum dist l) 0
  | .polygon rings => rings.foldl (fun acc r => acc + segmentSum dist r) 0
  | .multiPolygon polys =>
      polys.foldl (fun acc rs => acc + rs.foldl (fun a r => a + segmentSum dist r) 0) 0
  | .geometryCollection gs => turfLengthList dist gs

/-- `turf.length` over a `GeometryCollection`'s members. -/
def turfLengthList (dist : Pos → Pos → ℚ) : List Geometry → ℚ
  | [] => 0
  | g :: gs => turfLength dist g + turfLengthList dist gs

end

/-- `detailsData[k] = (detailsData[k] || 0) + x` on the association-list
model of the `detailsData` object. -/
def addLen (m : List (String × ℚ)) (k : String) (x : ℚ) : List (String × ℚ) :=
  match m with
  | [] => [(k, 0 + x)]
  | (j, v) :: rest => if j = k then (j, v + x) :: rest else (j, v) :: addLen rest k x

/-- The pure computation inside `handleDetailed`: for each feature whose
geometry type is `LineString` or `MultiLineString`, add its `turf.length`
to the running total for that type; all other features are skipped. -/
def detailTotals (dist : Pos → Pos → ℚ) (c : GeometryCollection) :
    List (String × ℚ) :=
  c.features.foldl
    (fun m f =>
      if f.geometry.type = "LineString" ∨ f.geometry.type = "MultiLineString" then
        addLen m f.geometry.type (turfLength dist f.geometry)
      else m) []

theorem keys_addLen (m : List (String × ℚ)) (k : String) (x : ℚ) :
    (addLen m k x).map Prod.fst =
      if k ∈ m.map Prod.fst then m.map Prod.fst else m.map Prod.fst ++ [k] := by
  induction m with
  | nil => simp [addLen]
  | cons p rest ih =>
    obtain ⟨i, v⟩ := p
    by_cases hik : i = k
    · subst hik
      simp [addLen]
    · by_cases hmem : k ∈ rest.map Prod.fst <;>
        simp [addLen, hik, ih, hmem, Ne.symm hik]

theorem keys_line_foldl_addLen (dist : Pos → Pos → ℚ) (l : List Feature)
    (m : List (String × ℚ))
    (h : ∀ j ∈ m.map Prod.fst, j = "LineString" ∨ j = "MultiLineString") :
    ∀ j ∈ ((l.foldl
      (fun m f =>
        if f.geometry.type = "LineString" ∨ f.geometry.type = "MultiLineString" then
          addLen m f.geometry.type (turfLength dist f.geometry)
        else m) m)).map Prod.fst,
      j = "LineString" ∨ j = "MultiLineString" := by
  induction l generalizing m with
  | nil => exact h
  | cons f rest ih =>
    rw [List.foldl_cons]
    by_cases hf : f.geometry.type = "LineString" ∨ f.geometry.type = "MultiLineString"
    · rw [if_pos hf]
      refine ih _ ?_
      intro j hj
      rw [keys_addLen] at hj
      by_cases hmem : f.geometry.type ∈ m.map Prod.fst
      · exact h j (by simpa [hmem] using hj)
      · rw [if_neg hmem, List.mem_append, List.mem_singleton] at hj
        rcases hj with hj | hj
        · exact h j hj
        · exact hj ▸ hf
    · rw [if_neg hf]
      exact ih _ h

theorem foldl_addLen_filter (dist : Pos → Pos → ℚ) (l : List Feature)
    (m : List (String × ℚ)) :
    l.foldl
      (fun m f =>
        if f.geometry.type = "LineString" ∨ f.geometry.type = "MultiLineString" then
          addLen m f.geometry.type (turfLength dist f.geometry)
        else m) m =
    (l.filter (fun f =>
        f.geometry.type == "LineString" || f.geometry.type == "MultiLineString")).foldl
      (fun m f =>
        if f.geometry.type = "LineString" ∨ f.geometry.type = "MultiLineString" then
          addLen m f.geometry.type (turfLength dist f.geometry)
        else m) m := by
  induction l generalizing m with
  | nil => rfl
  | cons f rest ih =>
    by_cases hf : f.geometry.type = "LineString" ∨ f.geometry.type = "MultiLineString"
    · have hb : (f.geometry.type == "LineString" ||
          f.geometry.type == "MultiLineString") = true := by
        rcases hf with hf | hf <;> simp [hf]
      rw [List.foldl_cons, if_pos hf, List.filter_cons, if_pos hb,
        List.foldl_cons, if_pos hf]
      exact ih _
    · have hb : (f.geometry.type == "LineString" ||
          f.geometry.type == "MultiLineString") = false := by
        push_neg at hf
        simp [hf.1, hf.2]
      rw [List.foldl_cons, if_neg hf, List.filter_cons, hb]
      exact ih _

/-- C3: the Detailed table only ever carries the keys `LineString` and
`MultiLineString`, and features of any other geometry type contribute
nothing: the table computed from the collection equals the table computed
from the collection restricted to its line-typed features. -/
theorem detailTotals_line_only (dist : Pos → Pos → ℚ) (c : GeometryCollection) :
    (((detailTotals dist c).map Prod.fst).all
      (fun k => k == "LineString" || k == "MultiLineString")) = true ∧
    detailTotals dist c =
      detailTotals dist ⟨c.features.filter (fun f =>
        f.geometry.type == "LineString" || f.geometry.type == "MultiLineString")⟩ := by
  constructor
  · rw [List.all_eq_true]
    intro k hk
    have := keys_line_foldl_addLen dist c.features [] (by simp) k hk
    rcases this with h | h <;> simp [h]
  · exact foldl_addLen_filter dist c.features []

/-- A line with fewer than two positions has no segments, so its segment
sum is zero. -/
theorem segmentSum_of_short (dist : Pos → Pos → ℚ) (cs : List Pos)
    (h : cs.length ≤ 1) : segmentSum dist cs = 0 := by
  match cs with
  | [] => rfl
  | [p] => rfl
  | p :: q :: rest => simp at h

theorem foldl_segmentSum_zero (dist : Pos → Pos → ℚ) (lines : List (List Pos))
    (h : ∀ l ∈ lines, segmentSum dist l = 0) (a : ℚ) :
    lines.foldl (fun acc l => acc + segmentSum dist l) a = a := by
  induction lines generalizing a with
  | nil => rfl
  | cons l rest ih =>
    rw [List.foldl_cons, h l (List.mem_cons_self _ _), add_zero]
    exact ih (fun l hl => h l (List.mem_cons_of_mem _ hl)) a

/-- C9: a `LineString` or `MultiLineString` feature with fewer than two
coordinate positions contributes exactly 0 to the Detailed totals, whatever
the pointwise distance function computes. -/
theorem turfLength_short_line (dist : Pos → Pos → ℚ) (g : Geometry)
    (hline : g.type = "LineString" ∨ g.type = "MultiLineString")
    (hshort : (Geometry.coords g).length < 2) : turfLength dist g = 0 := by
  match g with
  | .point _ => simp [Geometry.type] at hline
  | .multiPoint _ => simp [Geometry.type] at hline
  | .polygon _ => simp [Geometry.type] at hline
  | .multiPolygon _ => simp [Geometry.type] at hline
  | .geometryCollection _ => simp [Geometry.type] at hline
  | .lineString cs =>
    rw [Geometry.coords] at hshort
    exact segmentSum_of_short dist cs (Nat.lt_succ_iff.1 hshort)
  | .multiLineString lines =>
    rw [Geometry.coords, List.length_flatten] at hshort
    rw [turfLength]
    refine foldl_segmentSum_zero dist lines (fun l hl => ?_) 0
    refine segmentSum_of_short dist l (Nat.lt_succ_iff.1 ?_)
    calc l.length ≤ (lines.map List.length).sum :=
        List.single_le_sum (fun n _ => Nat.zero_le n) _
          (List.mem_map_of_mem List.length hl)
      _ < 2 := hshort

/-- Witness for C9 at the concrete one-point LineString `[(0, 0)]` with a
distance function that is 1 everywhere. -/
theorem turfLength_short_line_witness :
    ((Geometry.lineString [((0 : ℚ), (0 : ℚ))]).type = "LineString" ∨
      (Geometry.lineString [((0 : ℚ), (0 : ℚ))]).type = "MultiLineString") ∧
    (Geometry.coords (Geometry.lineString [((0 : ℚ), (0 : ℚ))])).length < 2 ∧
    turfLength (fun _ _ => 1) (Geometry.lineString [((0 : ℚ), (0 : ℚ))]) = 0 :=
  ⟨Or.inl rfl, by decide,
    turfLength_short_line (fun _ _ => 1) _ (Or.inl rfl) (by decide)⟩

/-! ### File loading (`handleFileUpload`, App.js lines 15–30)

`handleFileUpload` takes `e.target.files[0]`; if no file was selected it
returns at once.  Otherwise it starts a `FileReader` read whose `onload`
callback parses the text with `new DOMParser().parseFromString(text,
'text/xml')`, converts with `toGeoJSON.kml`, and stores the result. -/

/-- The document returned by the browser's `DOMParser.parseFromString`.
Per the DOM standard this call never throws: on input that is not
well-formed XML it returns a document whose content is a `parsererror`
element (which contains no KML `Placemark` elements).  The embedding
records the parse at this interface: either the error document, or the
features that togeojson extracts from the document's Placemarks. -/
inductive ParsedXml : Type where
  | errorDoc : ParsedXml
  | doc (placemarkFeatures : List Feature) : ParsedXml

/-- `toGeoJSON.kml(kml)`: a FeatureCollection with one feature per
Placemark geometry; the parsererror document has no Placemarks, so it
converts to an empty FeatureCollection (togeojson does not throw). -/
def kmlToGeoJSON : ParsedXml → GeometryCollection
  | .errorDoc => ⟨[]⟩
  | .doc fs => ⟨fs⟩

/-- The `reader.onload` callback: parse, convert, then unconditionally
`setGeoJsonData(geoJson)`, `setSummary(null)`, `setDetails(null)`.  The
state current when the callback fires (the first argument) is never
consulted. -/
def readerOnLoad (_s : AppState) (text : ParsedXml) : AppState :=
  let geoJson := kmlToGeoJSON text
  { geoJsonData := some geoJson, summary := none, details := none }

/-- `handleFileUpload` followed by the completion of the read it starts.
`none` models a change event with no file (`e.target.files[0]` absent, the
`if (!file) return` branch).  The boolean reports whether a `FileReader`
read was started. -/
def handleFileUpload (s : AppState) (file : Option ParsedXml) : AppState × Bool :=
  match file with
  | none => (s, false)
  | some text => (readerOnLoad s text, true)

/-! ### The button handlers as state transitions -/

/-- `handleSummary`: no-op when `geoJsonData` is `null` (falsy), otherwise
store the freshly computed counts table. -/
def handleSummary (s : AppState) : AppState :=
  match s.geoJsonData with
  | none => s
  | some c => { s with summary := some (summaryCounts c) }

/-- `handleDetailed`: no-op when `geoJsonData` is `null` (falsy), otherwise
store the freshly computed length table. -/
def handleDetailed (dist : Pos → Pos → ℚ) (s : AppState) : AppState :=
  match s.geoJsonData with
  | none => s
  | some c => { s with details := some (detailTotals dist c) }

/-- C2, counterexample: after loading a collection with one Point feature,
feeding an unparseable file does not leave the prior `geoJsonData`
untouched — `reader.onload` runs on the parsererror document and replaces
it (with the empty collection). -/
theorem malformed_load_changes_state :
    (readerOnLoad ⟨some ⟨[⟨Geometry.point (0, 0)⟩]⟩, none, none⟩
        ParsedXml.errorDoc).geoJsonData ≠
      (AppState.mk (some ⟨[⟨Geometry.point (0, 0)⟩]⟩) none none).geoJsonData := by
  intro h
  simp [readerOnLoad, kmlToGeoJSON] at h

/-- C2, amended: on text that is not parseable as XML the load does not
fail — DOMParser returns a parsererror document, the conversion yields an
empty FeatureCollection, and the handler replaces the prior collection with
it (clearing the derived tables). -/
theorem malformed_load_replaces_with_empty (s : AppState) :
    readerOnLoad s ParsedXml.errorDoc = ⟨some ⟨[]⟩, none, none⟩ := rfl

/-- C6: completing any file load replaces `geoJsonData` with the newly
converted collection and clears both derived tables in the same state
transition. -/
theorem load_clears_derived_state (s : AppState) (text : ParsedXml) :
    readerOnLoad s text = ⟨some (kmlToGeoJSON text), none, none⟩ := rfl

/-- C10: a change event carrying no file starts no read and leaves the
whole state unchanged. -/
theorem upload_without_file_is_noop (s : AppState) :
    handleFileUpload s none = (s, false) := rfl

/-- C5: with no collection loaded, both button handlers return the state
unchanged (and in particular raise no error — they are total). -/
theorem handlers_noop_when_unloaded (dist : Pos → Pos → ℚ) (s : AppState)
    (h : s.geoJsonData = none) :
    handleSummary s = s ∧ handleDetailed dist s = s := by
  constructor <;> simp [handleSummary, handleDetailed, h]

/-- Witness for C5 at the initial state (`null`, `null`, `null`). -/
theorem handlers_noop_when_unloaded_witness :
    (AppState.mk none none none).geoJsonData = none ∧
    (handleSummary ⟨none, none, none⟩ = ⟨none, none, none⟩ ∧
      handleDetailed (fun _ _ => 0) ⟨none, none, none⟩ = ⟨none, none, none⟩) :=
  ⟨rfl, handlers_noop_when_unloaded (fun _ _ => 0) ⟨none, none, none⟩ rfl⟩

/-- C4: the two computations are pure functions of the loaded collection:
states agreeing on `geoJsonData` produce equal Summary and Detailed
results; each handler touches nothing but its own result cell; and running
a handler twice equals running it once. -/
theorem handlers_pure (dist : Pos → Pos → ℚ) (s t : AppState)
    (c : GeometryCollection) (hs : s.geoJsonData = some c)
    (ht : t.geoJsonData = some c) :
    (handleSummary s).summary = some (summaryCounts c) ∧
    (handleSummary t).summary = some (summaryCounts c) ∧
    (handleDetailed dist s).details = some (detailTotals dist c) ∧
    (handleDetailed dist t).details = some (detailTotals dist c) ∧
    (handleSummary s).geoJsonData = s.geoJsonData ∧
    (handleSummary s).details = s.details ∧
    (handleDetailed dist s).geoJsonData = s.geoJsonData ∧
    (handleDetailed dist s).summary = s.summary ∧
    handleSummary (handleSummary s) = handleSummary s ∧
    handleDetailed dist (handleDetailed dist s) = handleDetailed dist s := by
  simp [handleSummary, handleDetailed, hs, ht]

/-- Witness for C4 at a concrete pair of states holding the same (empty)
collection. -/
theorem handlers_pure_witness :
    (AppState.mk (some ⟨[]⟩) none none).geoJsonData = some ⟨[]⟩ ∧
    (AppState.mk (some ⟨[]⟩) (some []) none).geoJsonData = some ⟨[]⟩ ∧
    ((handleSummary ⟨some ⟨[]⟩, none, none⟩).summary =
        some (summaryCounts ⟨[]⟩) ∧
      (handleSummary ⟨some ⟨[]⟩, some [], none⟩).summary =
        some (summaryCounts ⟨[]⟩) ∧
      (handleDetailed (fun _ _ => 0) ⟨some ⟨[]⟩, none, none⟩).details =
        some (detailTotals (fun _ _ => 0) ⟨[]⟩) ∧
      (handleDetailed (fun _ _ => 0) ⟨some ⟨[]⟩, some [], none⟩).details =
        some (detailTotals (fun _ _ => 0) ⟨[]⟩) ∧
      (handleSummary ⟨some ⟨[]⟩, none, none⟩).geoJsonData =
        (AppState.mk (some ⟨[]⟩) none none).geoJsonData ∧
      (handleSummary ⟨some ⟨[]⟩, none, none⟩).details =
        (AppState.mk (some ⟨[]⟩) none none).details ∧
      (handleDetailed (fun _ _ => 0) ⟨some ⟨[]⟩, none, none⟩).geoJsonData =
        (AppState.mk (some ⟨[]⟩) none none).geoJsonData ∧
      (handleDetailed (fun _ _ => 0) ⟨some ⟨[]⟩, none, none⟩).summary =
        (AppState.mk (some ⟨[]⟩) none none).summary ∧
      handleSummary (handleSummary ⟨some ⟨[]⟩, none, none⟩) =
        handleSummary ⟨some ⟨[]⟩, none, none⟩ ∧
      handleDetailed (fun _ _ => 0) (handleDetailed (fun _ _ => 0) ⟨some ⟨[]⟩, none, none⟩) =
        handleDetailed (fun _ _ => 0) ⟨some ⟨[]⟩, none, none⟩) :=
  ⟨rfl, rfl, handlers_pure (fun _ _ => 0) ⟨some ⟨[]⟩, none, none⟩
    ⟨some ⟨[]⟩, some [], none⟩ ⟨[]⟩ rfl rfl⟩

/-! ### The map-fit effect (`useEffect`, App.js lines 58–67)

`turf.bbox` starts from `[Infinity, Infinity, -Infinity, -Infinity]` and,
for every coordinate `coordEach` visits, lowers the two minima and raises
the two maxima (`if (result[0] > coord[0]) result[0] = coord[0]` and so
on).  The float infinities take part only in comparisons, so they are
modelled exactly by `⊤ : WithTop ℚ` and `⊥ : WithBot ℚ`. -/

/-- The turf.bbox accumulator `[minX, minY, maxX, maxY]`
(X = longitude, Y = latitude). -/
structure BBox : Type where
  minX : WithTop ℚ
  minY : WithTop ℚ
  maxX : WithBot ℚ
  maxY : WithBot ℚ

/-- `[Infinity, Infinity, -Infinity, -Infinity]`. -/
def bboxInit : BBox := ⟨⊤, ⊤, ⊥, ⊥⟩

/-- One `coordEach` step of `turf.bbox`. -/
def bboxStep (b : BBox) (p : Pos) : BBox :=
  { minX := if b.minX > (p.1 : WithTop ℚ) then (p.1 : WithTop ℚ) else b.minX
    minY := if b.minY > (p.2 : WithTop ℚ) then (p.2 : WithTop ℚ) else b.minY
    maxX := if b.maxX < (p.1 : WithBot ℚ) then (p.1 : WithBot ℚ) else b.maxX
    maxY := if b.maxY < (p.2 : WithBot ℚ) then (p.2 : WithBot ℚ) else b.maxY }

/-- Every position of every feature of the collection, in document order —
the positions `coordEach` visits on the FeatureCollection. -/
def collectionCoords (c : GeometryCollection) : List Pos :=
  (c.features.map (fun f => f.geometry.coords)).flatten

/-- `turf.bbox(geoJsonData)`. -/
def turfBbox (c : GeometryCollection) : BBox :=
  (collectionCoords c).foldl bboxStep bboxInit

/-- The arguments of a `mapRef.current.fitBounds` invocation:
`[[bbox[1], bbox[0]], [bbox[3], bbox[2]]]` with `{ padding: [20, 20] }`. -/
structure FitBoundsCall : Type where
  southWest : WithTop ℚ × WithTop ℚ
  northEast : WithBot ℚ × WithBot ℚ
  padding : ℕ × ℕ

/-- The `useEffect` body: when `geoJsonData` is non-null (any object is
truthy, including an empty FeatureCollection) and the map ref is set,
compute `turf.bbox` and call `fitBounds`.  The result records the
`fitBounds` invocation; `none` means `fitBounds` is not called and the map
keeps its current (default) viewport. -/
def mapFitEffect (geoJsonData : Option GeometryCollection) (mapExists : Bool) :
    Option FitBoundsCall :=
  match geoJsonData, mapExists with
  | some c, true =>
      let b := turfBbox c
      some ⟨(b.minY, b.minX), (b.maxY, b.maxX), (20, 20)⟩
  | _, _ => none

theorem ite_gt_eq_min (a b : WithTop ℚ) : (if a > b then b else a) = min a b := by
  rcases le_or_lt a b with h | h
  · rw [if_neg (not_lt.2 h), min_eq_left h]
  · rw [if_pos h, min_eq_right h.le]

theorem ite_lt_eq_max (a b : WithBot ℚ) : (if a < b then b else a) = max a b := by
  rcases le_or_lt b a with h | h
  · rw [if_neg (not_lt.2 h), max_eq_left h]
  · rw [if_pos h, max_eq_right h.le]

theorem foldl_bboxStep_minX (l : List Pos) (b : BBox) :
    (l.foldl bboxStep b).minX =
      l.foldl (fun a p => min a (p.1 : WithTop ℚ)) b.minX := by
  induction l generalizing b with
  | nil => rfl
  | cons p rest ih =>
    rw [List.foldl_cons, ih, List.foldl_cons]
    simp only [bboxStep, ite_gt_eq_min]

theorem foldl_bboxStep_minY (l : List Pos) (b : BBox) :
    (l.foldl bboxStep b).minY =
      l.foldl (fun a p => min a (p.2 : WithTop ℚ)) b.minY := by
  induction l generalizing b with
  | nil => rfl
  | cons p rest ih =>
    rw [List.foldl_cons, ih, List.foldl_cons]
    simp only [bboxStep, ite_gt_eq_min]

theorem foldl_bboxStep_maxX (l : List Pos) (b : BBox) :
    (l.foldl bboxStep b).maxX =
      l.foldl (fun a p => max a (p.1 : WithBot ℚ)) b.maxX := by
  induction l generalizing b with
  | nil => rfl
  | cons p rest ih =>
    rw [List.foldl_cons, ih, List.foldl_cons]
    simp only [bboxStep, ite_lt_eq_max]

theorem foldl_bboxStep_maxY (l : List Pos) (b : BBox) :
    (l.foldl bboxStep b).maxY =
      l.foldl (fun a p => max a (p.2 : WithBot ℚ)) b.maxY := by
  induction l generalizing b with
  | nil => rfl
  | cons p rest ih =>
    rw [List.foldl_cons, ih, List.foldl_cons]
    simp only [bboxStep, ite_lt_eq_max]

theorem foldl_min_coe_init (l : List ℚ) (a : WithTop ℚ) :
    l.foldl (fun (b : WithTop ℚ) (x : ℚ) => min b ↑x) a =
      min a (l.foldl (fun (b : WithTop ℚ) (x : ℚ) => min b ↑x) ⊤) := by
  induction l generalizing a with
  | nil => simp
  | cons x xs ih =>
    rw [List.foldl_cons, ih (min a ↑x), List.foldl_cons, ih (min ⊤ ↑x),
      min_eq_right le_top, min_assoc]

theorem foldl_max_coe_init (l : List ℚ) (a : WithBot ℚ) :
    l.foldl (fun (b : WithBot ℚ) (x : ℚ) => max b ↑x) a =
      max a (l.foldl (fun (b : WithBot ℚ) (x : ℚ) => max b ↑x) ⊥) := by
  induction l generalizing a with
  | nil => simp
  | cons x xs ih =>
    rw [List.foldl_cons, ih (max a ↑x), List.foldl_cons, ih (max ⊥ ↑x),
      max_eq_right bot_le, max_assoc]

theorem foldl_min_coe_spec (l : List ℚ) (h : l ≠ []) :
    ∃ m, m ∈ l ∧ l.foldl (fun (b : WithTop ℚ) (x : ℚ) => min b ↑x) ⊤ = ↑m ∧
      ∀ y ∈ l, m ≤ y := by
  induction l with
  | nil => exact absurd rfl h
  | cons x xs ih =>
    rcases eq_or_ne xs [] with rfl | hxs
    · refine ⟨x, List.mem_singleton_self x, ?_, ?_⟩
      · rw [List.foldl_cons, List.foldl_nil, min_eq_right le_top]
      · intro y hy
        rw [List.mem_singleton] at hy
        exact hy ▸ le_refl x
    · obtain ⟨m, hmem, heq, hbound⟩ := ih hxs
      refine ⟨min x m, ?_, ?_, ?_⟩
      · rcases le_total x m with hxm | hxm
        · rw [min_eq_left hxm]; exact List.mem_cons_self _ _
        · rw [min_eq_right hxm]; exact List.mem_cons_of_mem _ hmem
      · rw [List.foldl_cons, min_eq_right le_top, foldl_min_coe_init, heq]
        exact (WithTop.coe_min x m).symm
      · intro y hy
        rcases List.mem_cons.1 hy with rfl | hy
        · exact min_le_left _ _
        · exact le_trans (min_le_right _ _) (hbound y hy)

theorem foldl_max_coe_spec (l : List ℚ) (h : l ≠ []) :
    ∃ m, m ∈ l ∧ l.foldl (fun (b : WithBot ℚ) (x : ℚ) => max b ↑x) ⊥ = ↑m ∧
      ∀ y ∈ l, y ≤ m := by
  induction l with
  | nil => exact absurd rfl h
  | cons x xs ih =>
    rcases eq_or_ne xs [] with rfl | hxs
    · refine ⟨x, List.mem_singleton_self x, ?_, ?_⟩
      · rw [List.foldl_cons, List.foldl_nil, max_eq_right bot_le]
      · intro y hy
        rw [List.mem_singleton] at hy
        exact hy ▸ le_refl x
    · obtain ⟨m, hmem, heq, hbound⟩ := ih hxs
      refine ⟨max x m, ?_, ?_, ?_⟩
      · rcases le_total x m with hxm | hxm
        · rw [max_eq_right hxm]; exact List.mem_cons_of_mem _ hmem
        · rw [max_eq_left hxm]; exact List.mem_cons_self _ _
      · rw [List.foldl_cons, max_eq_right bot_le, foldl_max_coe_init, heq]
        exact (WithBot.coe_max x m).symm
      · intro y hy
        rcases List.mem_cons.1 hy with rfl | hy
        · exact le_max_left _ _
        · exact le_trans (hbound y hy) (le_max_right _ _)

/-- C7: with at least one coordinate present, the effect calls `fitBounds`
with the minimum bounding rectangle of all coordinates of all features:
southwest = (min latitude, min longitude), northeast = (max latitude,
max longitude), with the fixed pixel padding (20, 20). -/
theorem mapFitEffect_bounds (c : GeometryCollection)
    (h : collectionCoords c ≠ []) :
    ∃ latMin lonMin latMax lonMax : ℚ,
      mapFitEffect (some c) true =
        some ⟨((latMin : WithTop ℚ), (lonMin : WithTop ℚ)),
          ((latMax : WithBot ℚ), (lonMax : WithBot ℚ)), (20, 20)⟩ ∧
      latMin ∈ (collectionCoords c).map Prod.snd ∧
      (∀ y ∈ (collectionCoords c).map Prod.snd, latMin ≤ y) ∧
      lonMin ∈ (collectionCoords c).map Prod.fst ∧
      (∀ x ∈ (collectionCoords c).map Prod.fst, lonMin ≤ x) ∧
      latMax ∈ (collectionCoords c).map Prod.snd ∧
      (∀ y ∈ (collectionCoords c).map Prod.snd, y ≤ latMax) ∧
      lonMax ∈ (collectionCoords c).map Prod.fst ∧
      (∀ x ∈ (collectionCoords c).map Prod.fst, x ≤ lonMax) := by
  have hlon : (collectionCoords c).map Prod.fst ≠ [] :=
    fun hm => h (List.map_eq_nil_iff.1 hm)
  have hlat : (collectionCoords c).map Prod.snd ≠ [] :=
    fun hm => h (List.map_eq_nil_iff.1 hm)
  obtain ⟨lonMin, hlonMem, hlonEq, hlonLB⟩ := foldl_min_coe_spec _ hlon
  obtain ⟨latMin, hlatMem, hlatEq, hlatLB⟩ := foldl_min_coe_spec _ hlat
  obtain ⟨lonMax, hlonMaxMem, hlonMaxEq, hlonUB⟩ := foldl_max_coe_spec _ hlon
  obtain ⟨latMax, hlatMaxMem, hlatMaxEq, hlatUB⟩ := foldl_max_coe_spec _ hlat
  rw [List.foldl_map] at hlonEq hlatEq hlonMaxEq hlatMaxEq
  have hminX : (turfBbox c).minX = (lonMin : WithTop ℚ) := by
    rw [turfBbox, foldl_bboxStep_minX]; exact hlonEq
  have hminY : (turfBbox c).minY = (latMin : WithTop ℚ) := by
    rw [turfBbox, foldl_bboxStep_minY]; exact hlatEq
  have hmaxX : (turfBbox c).maxX = (lonMax : WithBot ℚ) := by
    rw [turfBbox, foldl_bboxStep_maxX]; exact hlonMaxEq
  have hmaxY : (turfBbox c).maxY = (latMax : WithBot ℚ) := by
    rw [turfBbox, foldl_bboxStep_maxY]; exact hlatMaxEq
  refine ⟨latMin, lonMin, latMax, lonMax, ?_, hlatMem, hlatLB, hlonMem,
    hlonLB, hlatMaxMem, hlatUB, hlonMaxMem, hlonUB⟩
  rw [show mapFitEffect (some c) true =
      some ⟨((turfBbox c).minY, (turfBbox c).minX),
        ((turfBbox c).maxY, (turfBbox c).maxX), (20, 20)⟩ from rfl,
    hminX, hminY, hmaxX, hmaxY]

/-- Witness for C7 at a two-point collection. -/
theorem mapFitEffect_bounds_witness :
    collectionCoords ⟨[⟨Geometry.point (0, 1)⟩, ⟨Geometry.point (2, 3)⟩]⟩ ≠ [] ∧
    (∃ latMin lonMin latMax lonMax : ℚ,
      mapFitEffect (some ⟨[⟨Geometry.point (0, 1)⟩, ⟨Geometry.point (2, 3)⟩]⟩) true =
        some ⟨((latMin : WithTop ℚ), (lonMin : WithTop ℚ)),
          ((latMax : WithBot ℚ), (lonMax : WithBot ℚ)), (20, 20)⟩ ∧
      latMin ∈ (collectionCoords
        ⟨[⟨Geometry.point (0, 1)⟩, ⟨Geometry.point (2, 3)⟩]⟩).map Prod.snd ∧
      (∀ y ∈ (collectionCoords
        ⟨[⟨Geometry.point (0, 1)⟩, ⟨Geometry.point (2, 3)⟩]⟩).map Prod.snd,
        latMin ≤ y) ∧
      lonMin ∈ (collectionCoords
        ⟨[⟨Geometry.point (0, 1)⟩, ⟨Geometry.point (2, 3)⟩]⟩).map Prod.fst ∧
      (∀ x ∈ (collectionCoords
        ⟨[⟨Geometry.point (0, 1)⟩, ⟨Geometry.point (2, 3)⟩]⟩).map Prod.fst,
        lonMin ≤ x) ∧
      latMax ∈ (collectionCoords
        ⟨[⟨Geometry.point (0, 1)⟩, ⟨Geometry.point (2, 3)⟩]⟩).map Prod.snd ∧
      (∀ y ∈ (collectionCoords
        ⟨[⟨Geometry.point (0, 1)⟩, ⟨Geometry.point (2, 3)⟩]⟩).map Prod.snd,
        y ≤ latMax) ∧
      lonMax ∈ (collectionCoords
        ⟨[⟨Geometry.point (0, 1)⟩, ⟨Geometry.point (2, 3)⟩]⟩).map Prod.fst ∧
      (∀ x ∈ (collectionCoords
        ⟨[⟨Geometry.point (0, 1)⟩, ⟨Geometry.point (2, 3)⟩]⟩).map Prod.fst,
        x ≤ lonMax)) :=
  ⟨by decide,
    mapFitEffect_bounds ⟨[⟨Geometry.point (0, 1)⟩, ⟨Geometry.point (2, 3)⟩]⟩
      (by decide)⟩

/-- C8, counterexample: for a loaded collection with no coordinates the
effect does not skip `fitBounds` — it is called with the sentinel corners
`(∞, ∞)` and `(−∞, −∞)` produced by `turf.bbox` of nothing. -/
theorem empty_collection_fit_called :
    mapFitEffect (some ⟨[]⟩) true ≠ none ∧
    mapFitEffect (some ⟨[]⟩) true = some ⟨(⊤, ⊤), (⊥, ⊥), (20, 20)⟩ :=
  ⟨fun h => Option.noConfusion h, rfl⟩

/-- C8, amended: when the loaded collection has no coordinate, `turf.bbox`
does yield the "no bounds" sentinel `[∞, ∞, -∞, -∞]`, but the effect still
calls `fitBounds` with those non-finite corners instead of leaving the map
at its default viewport. -/
theorem empty_coords_fit_sentinel (c : GeometryCollection)
    (h : collectionCoords c = []) :
    mapFitEffect (some c) true = some ⟨(⊤, ⊤), (⊥, ⊥), (20, 20)⟩ := by
  have hb : turfBbox c = bboxInit := by rw [turfBbox, h]; rfl
  rw [show mapFitEffect (some c) true =
      some ⟨((turfBbox c).minY, (turfBbox c).minX),
        ((turfBbox c).maxY, (turfBbox c).maxX), (20, 20)⟩ from rfl, hb]
  rfl

/-- Witness for C8's amended statement at a collection whose single feature
has an empty coordinate list. -/
theorem empty_coords_fit_sentinel_witness :
    collectionCoords ⟨[⟨Geometry.multiPoint []⟩]⟩ = [] ∧
    mapFitEffect (some ⟨[⟨Geometry.multiPoint []⟩]⟩) true =
      some ⟨(⊤, ⊤), (⊥, ⊥), (20, 20)⟩ :=
  ⟨rfl, empty_coords_fit_sentinel ⟨[⟨Geometry.multiPoint []⟩]⟩ rfl⟩

end KML
